import Mathlib

/- Shallow embedding of the lipr index pipeline (src/main.py together with the
entity declarations it uses).  Pure helpers model the Python dict / set / list
semantics the pipeline relies on; external collaborators (network calls and
subprocesses) are modelled as oracles supplied through an environment record. -/

namespace Lipr

/-- Python str.startswith, on character lists. -/
def listStartsWith : List Char → List Char → Bool
  | _, [] => true
  | [], _ :: _ => false
  | c :: cs, d :: ds => c == d && listStartsWith cs ds

/-- Python dict assignment d[k] = v: replaces the value in place when the key is
already present (keeping its position), appends a new binding otherwise. -/
def dictInsert {β : Type} (d : List (String × β)) (k : String) (v : β) :
    List (String × β) :=
  match d with
  | [] => [(k, v)]
  | (k0, v0) :: rest => if k0 = k then (k, v) :: rest else (k0, v0) :: dictInsert rest k v

/-- Python dict lookup: the first binding for the key (dictInsert keeps keys unique). -/
def alookup {β : Type} (k : String) : List (String × β) → Option β
  | [] => none
  | (k0, v) :: rest => if k0 = k then some v else alookup k rest

/-- Python set(...) built from an iterable: the distinct elements, here
enumerated in first-occurrence order.  CPython enumerates a set of strings in
an order that depends on the per-process string-hash seed; the definitions
suffixed Ord below take that iteration order as an explicit parameter, and
dedupFirst is the fixed admissible order used where the order is irrelevant to
the property at hand or scoped to a single process. -/
def dedupFirstAux (seen : List String) : List String → List String
  | [] => []
  | x :: xs => if x ∈ seen then dedupFirstAux seen xs else x :: dedupFirstAux (seen ++ [x]) xs

def dedupFirst (l : List String) : List String := dedupFirstAux [] l

/- Semantic versions.  The pipeline calls semver.Version.is_valid, an external
library dependency pinned to the semver.org grammar. -/

/-- Modelled from the spec: the semver library used by src/main.py is an external
dependency; the spec describes SemanticVersion as a
(major, minor, patch, prerelease?, build?) tuple with the standard total order,
which is the semver.org grammar the library implements. -/
structure SemVer where
  major : Nat
  minor : Nat
  patch : Nat
  prerelease : List (List Char)
  build : List (List Char)
deriving DecidableEq, Repr

def natOfDigits (cs : List Char) : Nat :=
  cs.foldl (fun n c => n * 10 + (c.toNat - 48)) 0

/-- A numeric identifier: nonempty digits, no leading zero unless exactly 0. -/
def numericOk (ds : List Char) : Bool :=
  !ds.isEmpty && ds.all Char.isDigit && (ds.length == 1 || !(ds.head? == some '0'))

def parseNumeric (cs : List Char) : Option (Nat × List Char) :=
  let p := cs.span Char.isDigit
  if numericOk p.1 then some (natOfDigits p.1, p.2) else none

/-- Split a character list on dots (Python str.split on a dot). -/
def splitDots : List Char → List (List Char)
  | [] => [[]]
  | c :: cs =>
    if c = '.' then [] :: splitDots cs
    else
      match splitDots cs with
      | [] => [[c]]
      | g :: gs => (c :: g) :: gs

/-- Split at the first plus sign, if any: (before, after?). -/
def splitAtPlus : List Char → List Char × Option (List Char)
  | [] => ([], none)
  | c :: cs =>
    if c = '+' then ([], some cs)
    else
      let r := splitAtPlus cs
      (c :: r.1, r.2)

def alnumHyphen (c : Char) : Bool := c.isAlphanum || c == '-'

/-- A prerelease identifier: numeric with no leading zeros, or an
alphanumeric-and-hyphen word containing at least one non-digit. -/
def preIdOk (cs : List Char) : Bool :=
  if cs.isEmpty then false
  else if cs.all Char.isDigit then cs.length == 1 || !(cs.head? == some '0')
  else cs.all alnumHyphen

/-- A build identifier: nonempty, over alphanumerics and hyphens. -/
def buildIdOk (cs : List Char) : Bool :=
  !cs.isEmpty && cs.all alnumHyphen

/-- Parse MAJOR.MINOR.PATCH with optional -PRERELEASE and +BUILD suffixes,
per the anchored semver.org regex the semver library validates against. -/
def semverParse (s : String) : Option SemVer :=
  match parseNumeric s.data with
  | none => none
  | some (mjr, r1) =>
    match r1 with
    | '.' :: r2 =>
      match parseNumeric r2 with
      | none => none
      | some (mnr, r3) =>
        match r3 with
        | '.' :: r4 =>
          match parseNumeric r4 with
          | none => none
          | some (pat, r5) =>
            match r5 with
            | [] => some ⟨mjr, mnr, pat, [], []⟩
            | '+' :: rb =>
              let bids := splitDots rb
              if bids.all buildIdOk then some ⟨mjr, mnr, pat, [], bids⟩ else none
            | '-' :: rp =>
              let pb := splitAtPlus rp
              let pids := splitDots pb.1
              if pids.all preIdOk then
                match pb.2 with
                | none => some ⟨mjr, mnr, pat, pids, []⟩
                | some bcs =>
                  let bids := splitDots bcs
                  if bids.all buildIdOk then some ⟨mjr, mnr, pat, pids, bids⟩ else none
              else none
            | _ => none
        | _ => none
    | _ => none

/-- Translation of semver.Version.is_valid. -/
def semverValid (s : String) : Bool := (semverParse s).isSome

def charListCmp : List Char → List Char → Ordering
  | [], [] => Ordering.eq
  | [], _ :: _ => Ordering.lt
  | _ :: _, [] => Ordering.gt
  | c :: cs, d :: ds =>
    match compare c d with
    | Ordering.eq => charListCmp cs ds
    | o => o

/-- Prerelease identifier precedence: numeric identifiers compare numerically
and sort below alphanumeric ones, which compare in ASCII order. -/
def idCmp (a b : List Char) : Ordering :=
  if a.all Char.isDigit then
    if b.all Char.isDigit then compare (natOfDigits a) (natOfDigits b) else Ordering.lt
  else
    if b.all Char.isDigit then Ordering.gt else charListCmp a b

def preCmp : List (List Char) → List (List Char) → Ordering
  | [], [] => Ordering.eq
  | [], _ :: _ => Ordering.lt
  | _ :: _, [] => Ordering.gt
  | a :: l1, b :: l2 =>
    match idCmp a b with
    | Ordering.eq => preCmp l1 l2
    | o => o

/-- Semver precedence: major, minor, patch numerically; a release sorts above
any prerelease of the same triple; prerelease lists compare identifier-wise. -/
def semverCmp (a b : SemVer) : Ordering :=
  match compare a.major b.major with
  | Ordering.eq =>
    match compare a.minor b.minor with
    | Ordering.eq =>
      match compare a.patch b.patch with
      | Ordering.eq =>
        match a.prerelease, b.prerelease with
        | [], [] => Ordering.eq
        | [], _ :: _ => Ordering.gt
        | _ :: _, [] => Ordering.lt
        | p, q => preCmp p q
      | o => o
    | o => o
  | o => o

/-- Precedence comparison of version strings (build metadata ignored, per
semver); false when either side fails to parse. -/
def semverLeB (a b : String) : Bool :=
  match semverParse a, semverParse b with
  | some x, some y =>
    match semverCmp x y with
    | Ordering.gt => false
    | _ => true
  | _, _ => false

/-- The list is ascending under semver precedence. -/
def semverAscending : List String → Bool
  | [] => true
  | [_] => true
  | a :: b :: rest => semverLeB a b && semverAscending (b :: rest)

def tagHead : String := "refs/tags/v"

/-- One iteration of the filtering loop of src/main.py _fetch_versions (lines
198-209): skip refs not starting with refs/tags/v, strip the prefix, skip
strings that are not valid semantic versions, append survivors. -/
def versionStep (versions : List String) (ref : String) : List String :=
  if !(listStartsWith ref.data tagHead.data) then versions
  else
    let ver := String.mk (ref.data.drop tagHead.data.length)
    if !(semverValid ver) then versions
    else versions ++ [ver]

/-- Translation of the filtering loop of src/main.py _fetch_versions.  Input is
the list of raw ref names (the second field of each git ls-remote line, whose
format is fixed). -/
def fetchVersions (refs : List String) : List String :=
  refs.foldl versionStep []

/- Entities.  src/main.py imports Manifest, Index, IndexPackage, IndexVariant
and the LeviLauncher flavors from entities; src/entities.py does not declare
these classes, so their fields are taken from the constructor calls in
src/main.py and from the spec's data model.  Python dicts are association
lists in insertion order. -/

/-- Modelled from the spec: descriptive metadata of a manifest (the
ManifestInfo record of the spec; the class itself is not under src/). -/
structure ManifestInfo where
  name : String
  description : String
  tags : List String
  avatar_url : String
deriving DecidableEq, Repr

/-- Modelled from the spec: one manifest variant, with a label and a mapping
dependency-identifier to version-constraint (class not under src/; fields are
those read by src/main.py: label and dependencies). -/
structure ManifestVariant where
  label : String
  dependencies : List (String × String)
deriving DecidableEq, Repr

/-- Modelled from the spec: the validated manifest document (class not under
src/; fields are those read by src/main.py: info, version, variants).  The
declared version is kept as its string rendering. -/
structure Manifest where
  info : ManifestInfo
  version : String
  variants : List ManifestVariant
deriving DecidableEq, Repr

/-- Translation of the _RepoInfo dataclass of src/main.py. -/
structure RepoInfo where
  stargazer_count : Nat
  updated_at : String
deriving DecidableEq, Repr

/-- Modelled from the spec: IndexVariant(versions=[...]) as constructed at
src/main.py line 72. -/
structure IndexVariant where
  versions : List String
deriving DecidableEq, Repr

/-- Modelled from the spec: IndexPackage as constructed at src/main.py line 67;
variants is a Python dict keyed by variant label. -/
structure IndexPackage where
  info : ManifestInfo
  stargazer_count : Nat
  updated_at : String
  variants : List (String × IndexVariant)
deriving DecidableEq, Repr

/-- Modelled from the spec: the top-level Index document (format identity
fields are hard-coded constants, per the spec and entities.py's PackageIndex). -/
structure Index where
  packages : List (String × IndexPackage)
deriving DecidableEq, Repr

/-- Modelled from the spec: IndexVersionForLeviLauncher as constructed at
src/main.py line 89. -/
structure IndexVersionForLeviLauncher where
  dependencies : List (String × String)
deriving DecidableEq, Repr

/-- Modelled from the spec: IndexVariantForLeviLauncher as constructed at
src/main.py line 87; versions is a Python dict keyed by version. -/
structure IndexVariantForLeviLauncher where
  versions : List (String × IndexVersionForLeviLauncher)
deriving DecidableEq, Repr

/-- Modelled from the spec: IndexPackageForLeviLauncher as constructed at
src/main.py line 82. -/
structure IndexPackageForLeviLauncher where
  info : ManifestInfo
  stargazer_count : Nat
  updated_at : String
  variants : List (String × IndexVariantForLeviLauncher)
deriving DecidableEq, Repr

/-- Modelled from the spec: the second output flavor's top-level document. -/
structure IndexForLeviLauncher where
  packages : List (String × IndexPackageForLeviLauncher)
deriving DecidableEq, Repr

/- The manifest fetch of src/main.py _fetch_manifest.  The HTTP response, the
external migration tool and pydantic validation are oracles. -/

/-- Translation of src/main.py _fetch_manifest (lines 231-254): after the HTTP
fetch, the raw bytes are ALWAYS passed through the external migration tool
(lip migrate, check=True raises on failure), and validation runs once, on the
migrated output only.  Returns the outcome together with the number of
invocations of the migration tool on this fetch. -/
def fetchManifestRaw (validate : String → Option Manifest)
    (migrate : String → Option String) (raw : String) : Option Manifest × Nat :=
  match migrate raw with
  | none => (none, 1)
  | some migrated => (validate migrated, 1)

/- The per-repository pipeline of src/main.py main() (lines 45-108). -/

/-- Oracles for the external collaborators of one run: repository metadata
(_fetch_repo_info), the head manifest fetch (_fetch_manifest at HEAD), the raw
tag refs listed by git ls-remote inside _fetch_versions, and the per-version
manifest fetch (_download_and_save_version_manifest).  A none models the
Python exception the corresponding call would raise. -/
structure Env where
  repoInfo : String → Option RepoInfo
  headManifest : String → Option Manifest
  tagRefs : String → Option (List String)
  versionManifest : String → String → Option Manifest

/-- Translation of src/main.py lines 52-64: each version's manifest is fetched
under its own try block; a failure is logged and that version skipped, the
loop continues with the next version. -/
def collectManifests (env : Env) (repo : String) (versions : List String) :
    List Manifest :=
  versions.filterMap fun v => env.versionManifest repo v

/-- Translation of src/main.py line 66: the set of variant labels occurring in
any collected manifest (Python set, here in first-occurrence order; labelsOf
is labelsOfOrd at the fixed order dedupFirst). -/
def labelsOf (ms : List Manifest) : List String :=
  dedupFirst (ms.flatMap fun m => m.variants.map ManifestVariant.label)

/-- The condition of the comprehensions at src/main.py lines 76 and 98: some
variant of the manifest carries the label. -/
def hasLabel (var : String) (m : Manifest) : Bool :=
  m.variants.any fun v => v.label == var

/-- Translation of src/main.py lines 73-77: the versions listed under one
variant label of the main index. -/
def variantVersions (var : String) (ms : List Manifest) : List String :=
  (ms.filter (hasLabel var)).map Manifest.version

/-- Translation of src/main.py lines 90-95: the merged dependency dict of one
manifest for one label (later variants with the same label overwrite earlier
keys, dict insertion semantics). -/
def variantDeps (var : String) (m : Manifest) : List (String × String) :=
  ((m.variants.filter fun v => v.label == var).flatMap ManifestVariant.dependencies).foldl
    (fun d kv => dictInsert d kv.1 kv.2) []

/-- Translation of src/main.py lines 88-99: the versions dict of one variant of
the LeviLauncher index (a dict comprehension, so duplicate version keys
collapse with dict insertion semantics). -/
def llVariantVersions (var : String) (ms : List Manifest) :
    List (String × IndexVersionForLeviLauncher) :=
  (ms.filter (hasLabel var)).foldl
    (fun d m => dictInsert d m.version (IndexVersionForLeviLauncher.mk (variantDeps var m))) []

/-- Translation of src/main.py lines 67-81: the IndexPackage built for one
repository from its head-manifest info, repository metadata, and collected
version manifests. -/
def buildPackage (info : ManifestInfo) (ri : RepoInfo) (ms : List Manifest) :
    IndexPackage where
  info := info
  stargazer_count := ri.stargazer_count
  updated_at := ri.updated_at
  variants := (labelsOf ms).map fun var => (var, IndexVariant.mk (variantVersions var ms))

/-- Translation of src/main.py lines 82-103: the LeviLauncher flavor built for
one repository from the same head-manifest info, metadata and manifests. -/
def buildPackageLL (info : ManifestInfo) (ri : RepoInfo) (ms : List Manifest) :
    IndexPackageForLeviLauncher where
  info := info
  stargazer_count := ri.stargazer_count
  updated_at := ri.updated_at
  variants := (labelsOf ms).map fun var =>
    (var, IndexVariantForLeviLauncher.mk (llVariantVersions var ms))

/-- Translation of the body of the per-repository try block, src/main.py lines
46-103: metadata, head manifest and tag listing each abort the repository on
failure (the enclosing except at line 105 absorbs the exception); otherwise
both flavor entries are built from the same collected data. -/
def processRepo (env : Env) (repo : String) :
    Option (IndexPackage × IndexPackageForLeviLauncher) :=
  match env.repoInfo repo, env.headManifest repo, env.tagRefs repo with
  | some ri, some hm, some refs =>
    let ms := collectManifests env repo (fetchVersions refs)
    some (buildPackage hm.info ri ms, buildPackageLL hm.info ri ms)
  | _, _, _ => none

/-- One iteration of the repository loop of src/main.py main(): a successfully
processed repository is written into both package dicts, a failed one (the
except branch at line 105) leaves both unchanged. -/
def pipelineStep (env : Env)
    (acc : List (String × IndexPackage) × List (String × IndexPackageForLeviLauncher))
    (repo : String) :
    List (String × IndexPackage) × List (String × IndexPackageForLeviLauncher) :=
  match processRepo env repo with
  | some pq => (dictInsert acc.1 repo pq.1, dictInsert acc.2 repo pq.2)
  | none => acc

/-- Translation of the repository loop of src/main.py main() (lines 42-103):
both package dicts are filled repository by repository in discovery order; a
repository whose processing raised contributes to neither. -/
def runPipeline (env : Env) (repos : List String) :
    List (String × IndexPackage) × List (String × IndexPackageForLeviLauncher) :=
  repos.foldl (pipelineStep env) ([], [])

/- The same translation with the Python set-iteration order made explicit.
The comprehension keys at src/main.py lines 71-80 and 86-102 iterate
variants = set(...) (line 66); CPython enumerates a set of strings in an order
determined by the per-process string-hash seed, so that order is an input of
the program, not a constant.  sigma maps the label insertion sequence to the
set's iteration order; the definitions above are the instances at the fixed
order dedupFirst. -/

/-- Translation of src/main.py line 66 with the set-iteration order sigma
explicit. -/
def labelsOfOrd (sigma : List String → List String) (ms : List Manifest) : List String :=
  sigma (ms.flatMap fun m => m.variants.map ManifestVariant.label)

/-- Translation of src/main.py lines 67-81 with the variants set-iteration
order explicit (buildPackage is the instance at dedupFirst). -/
def buildPackageOrd (sigma : List String → List String) (info : ManifestInfo)
    (ri : RepoInfo) (ms : List Manifest) : IndexPackage where
  info := info
  stargazer_count := ri.stargazer_count
  updated_at := ri.updated_at
  variants := (labelsOfOrd sigma ms).map fun var =>
    (var, IndexVariant.mk (variantVersions var ms))

/-- Translation of src/main.py lines 82-103 with the variants set-iteration
order explicit (buildPackageLL is the instance at dedupFirst). -/
def buildPackageLLOrd (sigma : List String → List String) (info : ManifestInfo)
    (ri : RepoInfo) (ms : List Manifest) : IndexPackageForLeviLauncher where
  info := info
  stargazer_count := ri.stargazer_count
  updated_at := ri.updated_at
  variants := (labelsOfOrd sigma ms).map fun var =>
    (var, IndexVariantForLeviLauncher.mk (llVariantVersions var ms))

/-- Translation of the per-repository try block with the set-iteration order
explicit (processRepo is the instance at dedupFirst). -/
def processRepoOrd (sigma : List String → List String) (env : Env) (repo : String) :
    Option (IndexPackage × IndexPackageForLeviLauncher) :=
  match env.repoInfo repo, env.headManifest repo, env.tagRefs repo with
  | some ri, some hm, some refs =>
    let ms := collectManifests env repo (fetchVersions refs)
    some (buildPackageOrd sigma hm.info ri ms, buildPackageLLOrd sigma hm.info ri ms)
  | _, _, _ => none

/-- One iteration of the repository loop with the set-iteration order
explicit. -/
def pipelineStepOrd (sigma : List String → List String) (env : Env)
    (acc : List (String × IndexPackage) × List (String × IndexPackageForLeviLauncher))
    (repo : String) :
    List (String × IndexPackage) × List (String × IndexPackageForLeviLauncher) :=
  match processRepoOrd sigma env repo with
  | some pq => (dictInsert acc.1 repo pq.1, dictInsert acc.2 repo pq.2)
  | none => acc

/-- Translation of the repository loop with the set-iteration order explicit
(runPipeline is the instance at dedupFirst). -/
def runPipelineOrd (sigma : List String → List String) (env : Env) (repos : List String) :
    List (String × IndexPackage) × List (String × IndexPackageForLeviLauncher) :=
  repos.foldl (pipelineStepOrd sigma env) ([], [])

/-- An admissible Python set-iteration order: for every insertion sequence it
enumerates exactly the distinct elements, in some order.  CPython's salted
string hashing selects one such order per process. -/
def SetOrder (sigma : List String → List String) : Prop :=
  ∀ xs, (sigma xs).Perm (dedupFirst xs)

/-- An admissible set-iteration order different from first-occurrence order. -/
def revOrder (xs : List String) : List String := (dedupFirst xs).reverse

/-- Entries produced for one repository by two runs that differ only in their
set-iteration order come from the same head info, metadata and manifests. -/
def EntriesRelOrd (sigma1 sigma2 : List String → List String)
    (a1 : Option IndexPackage) (b1 : Option IndexPackageForLeviLauncher)
    (a2 : Option IndexPackage) (b2 : Option IndexPackageForLeviLauncher) : Prop :=
  match a1, b1, a2, b2 with
  | some pk1, some pl1, some pk2, some pl2 => ∃ info ri ms,
      pk1 = buildPackageOrd sigma1 info ri ms ∧ pl1 = buildPackageLLOrd sigma1 info ri ms ∧
      pk2 = buildPackageOrd sigma2 info ri ms ∧ pl2 = buildPackageLLOrd sigma2 info ri ms
  | none, none, none, none => True
  | _, _, _, _ => False

/- Serialization.  src/main.py serializes with pydantic's model_dump_json: a
compact JSON document whose object keys follow field declaration order for
models and insertion order for dicts.  The entity classes are not under src/,
so the emitted field layout is modelled from the spec's canonical document
(format identity fields, then the packages map). -/

def quoteMark : String := "\""
def lbrace : String := "\x7b"
def rbrace : String := "\x7d"
def commaSep : String := ","

def jstr (s : String) : String := quoteMark ++ s ++ quoteMark

/-- One JSON object member, rendered from a (key, rendered value) pair. -/
def jfield (kv : String × String) : String := jstr kv.1 ++ ":" ++ kv.2

def jobj (fields : List (String × String)) : String :=
  lbrace ++ String.intercalate commaSep (fields.map jfield) ++ rbrace

def jarr (xs : List String) : String :=
  "[" ++ String.intercalate commaSep xs ++ "]"

def formatUuidConst : String := "289f771f-2c9a-4d73-9f3f-8492495a924d"

/-- Modelled from the spec: JSON rendering of the info block, fields in
declaration order of entities.py's PackageManifestInfo. -/
def serializeInfo (i : ManifestInfo) : String :=
  jobj [("name", jstr i.name), ("description", jstr i.description),
    ("tags", jarr (i.tags.map jstr)), ("avatar_url", jstr i.avatar_url)]

/-- Modelled from the spec: JSON rendering of one main-index variant. -/
def serializeIndexVariant (v : IndexVariant) : String :=
  jobj [("versions", jarr (v.versions.map jstr))]

/-- Modelled from the spec: JSON rendering of one main-index package entry;
the variants dict keeps its insertion order. -/
def serializeIndexPackage (p : IndexPackage) : String :=
  jobj [("info", serializeInfo p.info),
    ("stargazer_count", toString p.stargazer_count),
    ("updated_at", jstr p.updated_at),
    ("variants", jobj (p.variants.map fun kv => (kv.1, serializeIndexVariant kv.2)))]

/-- Modelled from the spec: JSON rendering of the main index document written
by _save_index; the packages dict keeps its insertion order and the format
identity fields are the hard-coded constants. -/
def serializeIndex (i : Index) : String :=
  jobj [("format_version", "3"),
    ("format_uuid", jstr formatUuidConst),
    ("packages", jobj (i.packages.map fun kv => (kv.1, serializeIndexPackage kv.2)))]

/-- Modelled from the spec: JSON rendering of one LeviLauncher version entry. -/
def serializeLLVersion (v : IndexVersionForLeviLauncher) : String :=
  jobj [("dependencies", jobj (v.dependencies.map fun kv => (kv.1, jstr kv.2)))]

/-- Modelled from the spec: JSON rendering of one LeviLauncher variant. -/
def serializeLLVariant (v : IndexVariantForLeviLauncher) : String :=
  jobj [("versions", jobj (v.versions.map fun kv => (kv.1, serializeLLVersion kv.2)))]

/-- Modelled from the spec: JSON rendering of one LeviLauncher package entry. -/
def serializeLLPackage (p : IndexPackageForLeviLauncher) : String :=
  jobj [("info", serializeInfo p.info),
    ("stargazer_count", toString p.stargazer_count),
    ("updated_at", jstr p.updated_at),
    ("variants", jobj (p.variants.map fun kv => (kv.1, serializeLLVariant kv.2)))]

/-- Modelled from the spec: JSON rendering of the LeviLauncher index document
written by _save_index_for_levilauncher. -/
def serializeIndexLL (i : IndexForLeviLauncher) : String :=
  jobj [("format_version", "3"),
    ("format_uuid", jstr formatUuidConst),
    ("packages", jobj (i.packages.map fun kv => (kv.1, serializeLLPackage kv.2)))]

/- Filesystem effects.  main() wipes the workspace first (_cleanup, line 39)
and writes the index documents at the end (_save_index, lines 257-261).  The
filesystem is a map from path to content; the operations each function
performs are recorded as a trace. -/

inductive FsOp where
  | write (path : String) (content : String)
  | removeTree (path : String)
  | makeDirs (path : String)
  | rename (src : String) (dst : String)
deriving DecidableEq, Repr

def applyOp (fs : List (String × String)) : FsOp → List (String × String)
  | FsOp.write p c => dictInsert fs p c
  | FsOp.removeTree p => fs.filter fun f => !(listStartsWith f.1.data p.data)
  | FsOp.makeDirs _ => fs
  | FsOp.rename src dst =>
    match alookup src fs with
    | some c => dictInsert ((fs.filter fun f => !(f.1 = src)) ) dst c
    | none => fs

def applyOps (fs : List (String × String)) (ops : List FsOp) : List (String × String) :=
  ops.foldl applyOp fs

/-- Translation of _BASE_DIR of src/main.py line 27. -/
def baseDir : String := "./workspace/lipr/github.com"

/-- The path _save_index writes to (src/main.py line 258). -/
def indexPath : String := baseDir ++ "/index.json"

/-- Translation of src/main.py _cleanup (lines 119-125): remove the whole base
directory tree, then recreate it. -/
def cleanupOps : List FsOp :=
  [FsOp.removeTree baseDir, FsOp.makeDirs baseDir]

/-- Translation of src/main.py _save_index (lines 257-261): one direct
write_bytes of the serialized document to the final path. -/
def saveIndexOps (i : Index) : List FsOp :=
  [FsOp.write indexPath (serializeIndex i)]

/-- Translation of the prefix of main() that runs when repository discovery
raises (src/main.py lines 39-45): _cleanup has already run, the exception from
_discover_repos propagates (fatal), and nothing else touches the filesystem. -/
def mainFatalOps : List FsOp := cleanupOps

/-- True exactly for a rename operation. -/
def isRenameOp : FsOp → Bool
  | FsOp.rename _ _ => true
  | _ => false

/- Specification-side definitions and proof-side notions. -/

/-- Modelled from the spec: the Version Resolver keeps exactly the refs of the
form refs/tags/v followed by a parseable semantic version, stripped of the
prefix; non-matching and unparseable refs are discarded without error.  Stated
as a filter in input order, to be compared with fetchVersions. -/
def resolveVersionsSpec (refs : List String) : List String :=
  refs.filterMap fun ref =>
    if listStartsWith ref.data tagHead.data &&
        semverValid (String.mk (ref.data.drop tagHead.data.length)) then
      some (String.mk (ref.data.drop tagHead.data.length))
    else none

/-- Append a key if absent: the shape dict-key lists take under dictInsert. -/
def insertKey (ks : List String) (k : String) : List String :=
  if k ∈ ks then ks else ks ++ [k]

/-- The two flavor entries of one repository come from the same head info,
metadata and collected manifests. -/
def PkgRel (pk : IndexPackage) (pl : IndexPackageForLeviLauncher) : Prop :=
  ∃ info ri ms, pk = buildPackage info ri ms ∧ pl = buildPackageLL info ri ms

/-- Lifted to the optional results of the two package dicts. -/
def OptRel : Option IndexPackage → Option IndexPackageForLeviLauncher → Prop
  | some a, some b => PkgRel a b
  | none, none => True
  | _, _ => False

/-- The oracles of two runs answer identically for one repository. -/
def EnvAgree (env1 env2 : Env) (r : String) : Prop :=
  env1.repoInfo r = env2.repoInfo r ∧ env1.headManifest r = env2.headManifest r ∧
    env1.tagRefs r = env2.tagRefs r ∧
    ∀ v, env1.versionManifest r v = env2.versionManifest r v

/- Concrete fixtures used by counterexamples and witnesses. -/

def repoDemo : String := "acme/tool"
def repoB : String := "acme/other"
def zzzRepo : String := "acme/unseen"
def verOne : String := "1.0.0"
def verTwo : String := "2.0.0"
def v110rc1 : String := "1.1.0-rc1"
def v120 : String := "1.2.0"
def emptyStr : String := ""

def infoHead : ManifestInfo :=
  { name := "pkg", description := "demo", tags := [], avatar_url := "" }

def riDemo : RepoInfo :=
  { stargazer_count := 7, updated_at := "2024-01-01T00:00:00Z" }

def defaultVariant : ManifestVariant := { label := "", dependencies := [] }

def mHead : Manifest := { info := infoHead, version := "0.1.0", variants := [defaultVariant] }

def mOne : Manifest := { info := infoHead, version := verOne, variants := [defaultVariant] }

/-- Raw bytes that already satisfy the current schema (the first test of
src/test_main.py feeds such content and asserts the migration subprocess is
never called). -/
def rawValidBytes : String := "already-valid-current-schema-manifest"

/-- A validation oracle under which rawValidBytes is schema-valid as it is. -/
def validateC1 (raw : String) : Option Manifest :=
  if raw = rawValidBytes then some mHead else none

/-- A migration oracle that echoes its input. -/
def migrateC1 (raw : String) : Option String := some raw

/-- Head manifest validates, the repository publishes no tags, so zero
versions survive. -/
def envC2 : Env where
  repoInfo := fun _ => some riDemo
  headManifest := fun _ => some mHead
  tagRefs := fun _ => some []
  versionManifest := fun _ _ => none

def tagRefsC4 : List String := ["refs/tags/v1.0.0", "refs/tags/v2.0.0"]

/-- Two resolved versions; fetching the manifest of version 2.0.0 fails. -/
def envC4 : Env where
  repoInfo := fun _ => some riDemo
  headManifest := fun _ => some mHead
  tagRefs := fun _ => some tagRefsC4
  versionManifest := fun _ v => if v = verOne then some mOne else none

/-- The head manifest fetch fails for every repository. -/
def envC5 : Env where
  repoInfo := fun _ => some riDemo
  headManifest := fun _ => none
  tagRefs := fun _ => some []
  versionManifest := fun _ _ => none

/-- Every repository processes successfully (zero versions, so an entry with an
empty variants map). -/
def envC6 : Env where
  repoInfo := fun _ => some riDemo
  headManifest := fun _ => some mHead
  tagRefs := fun _ => some []
  versionManifest := fun _ _ => none

def linuxLabel : String := "linux_x64"

/-- A version manifest declaring two distinct variant labels, so the variants
set of its repository has more than one element and the set-iteration order is
observable in the serialized output. -/
def mTwoLabels : Manifest :=
  { info := infoHead, version := verOne,
    variants := [{ label := "", dependencies := [] },
      { label := linuxLabel, dependencies := [] }] }

/-- One repository with one version whose manifest declares two variant
labels. -/
def envC6c : Env where
  repoInfo := fun _ => some riDemo
  headManifest := fun _ => some mHead
  tagRefs := fun _ => some ["refs/tags/v1.0.0"]
  versionManifest := fun _ v => if v = verOne then some mTwoLabels else none

/-- Same oracles as envC6c except on a repository that is never discovered. -/
def envC6d : Env :=
  { envC6c with repoInfo := fun r => if r = zzzRepo then none else envC6c.repoInfo r }

/-- The label insertion sequence of the only entry of an envC6c run. -/
def labelSeqC6 : List String := [emptyStr, linuxLabel]

/-- The main-index entry for repoDemo under envC6c at first-occurrence set
order. -/
def pkgD1 : IndexPackage := buildPackageOrd dedupFirst mHead.info riDemo [mTwoLabels]

/-- The main-index entry for repoDemo under envC6c at the reversed set
order. -/
def pkgD2 : IndexPackage := buildPackageOrd revOrder mHead.info riDemo [mTwoLabels]

/-- The spec's own resolver scenario, in tag-listing order. -/
def demoRefs : List String :=
  ["refs/tags/v1.0.0", "refs/tags/v1.2.0", "refs/tags/bad-tag", "refs/tags/v1.1.0-rc1"]

def priorContent : String := "previously-valid-index-bytes"

/-- The main-index entry produced for repoDemo under envC4. -/
def pkgC8 : IndexPackage := buildPackage mHead.info riDemo [mOne]

/-- The LeviLauncher entry produced for repoDemo under envC4. -/
def pkgC8LL : IndexPackageForLeviLauncher := buildPackageLL mHead.info riDemo [mOne]

def varC8 : IndexVariant := IndexVariant.mk (variantVersions emptyStr [mOne])

def varC8LL : IndexVariantForLeviLauncher :=
  IndexVariantForLeviLauncher.mk (llVariantVersions emptyStr [mOne])

/- Helper lemmas about the Python dict model. -/

theorem alookup_dictInsert {β : Type} (d : List (String × β)) (k a : String) (v : β) :
    alookup a (dictInsert d k v) = if k = a then some v else alookup a d := by
  induction d with
  | nil => simp [dictInsert, alookup]
  | cons hd tl ih =>
    obtain ⟨k0, v0⟩ := hd
    by_cases h : k0 = k
    · subst h
      by_cases h2 : k0 = a <;> simp [dictInsert, alookup, h2]
    · by_cases h2 : k0 = a
      · subst h2
        have hne : ¬ k = k0 := fun hh => h hh.symm
        simp [dictInsert, alookup, h, hne]
      · simp [dictInsert, alookup, h, h2, ih]

theorem map_fst_dictInsert {β : Type} (d : List (String × β)) (k : String) (v : β) :
    (dictInsert d k v).map Prod.fst = insertKey (d.map Prod.fst) k := by
  induction d with
  | nil => simp [dictInsert, insertKey]
  | cons hd tl ih =>
    obtain ⟨k0, v0⟩ := hd
    by_cases h : k0 = k
    · subst h
      simp [dictInsert, insertKey]
    · have hne : ¬ k = k0 := fun hh => h hh.symm
      simp only [dictInsert, if_neg h, List.map_cons, ih, insertKey, List.mem_cons]
      by_cases hm : k ∈ tl.map Prod.fst
      · simp [hm, hne]
      · simp [hm, hne]

theorem keys_foldl_dictInsert {α β : Type} (key : α → String) (val : α → β) :
    ∀ (l : List α) (d0 : List (String × β)),
      ((l.foldl (fun d m => dictInsert d (key m) (val m)) d0).map Prod.fst) =
        (l.map key).foldl insertKey (d0.map Prod.fst) := by
  intro l
  induction l with
  | nil => intro d0; rfl
  | cons m t ih =>
    intro d0
    simp only [List.foldl_cons, List.map_cons]
    rw [ih, map_fst_dictInsert]

theorem mem_foldl_insertKey (a : String) :
    ∀ (l : List String) (ks : List String),
      a ∈ l.foldl insertKey ks ↔ a ∈ ks ∨ a ∈ l := by
  intro l
  induction l with
  | nil => intro ks; simp
  | cons k t ih =>
    intro ks
    simp only [List.foldl_cons, ih, insertKey, List.mem_cons]
    by_cases h : k ∈ ks
    · rw [if_pos h]
      constructor
      · rintro (h1 | h2)
        · exact Or.inl h1
        · exact Or.inr (Or.inr h2)
      · rintro (h1 | h2 | h3)
        · exact Or.inl h1
        · subst h2; exact Or.inl h
        · exact Or.inr h3
    · rw [if_neg h]
      simp only [List.mem_append, List.mem_singleton]
      tauto

theorem alookup_map_pair {β : Type} (f : String → β) :
    ∀ (l : List String) (k : String),
      alookup k (l.map fun x => (x, f x)) = if k ∈ l then some (f k) else none := by
  intro l
  induction l with
  | nil => intro k; simp [alookup]
  | cons x t ih =>
    intro k
    by_cases h : x = k
    · subst h
      simp [alookup]
    · have hne : ¬ k = x := fun hh => h hh.symm
      simp [alookup, h, ih, hne]

theorem alookup_filter_none {β : Type} (p : String × β → Bool) (k : String)
    (hp : ∀ v, p (k, v) = false) :
    ∀ (l : List (String × β)), alookup k (l.filter p) = none := by
  intro l
  induction l with
  | nil => rfl
  | cons hd tl ih =>
    obtain ⟨k0, v0⟩ := hd
    by_cases h : k0 = k
    · subst h
      simp [List.filter_cons, hp v0, ih]
    · by_cases hpk : p (k0, v0) = true <;> simp [List.filter_cons, hpk, alookup, h, ih]

/- Lemmas about version resolution. -/

theorem foldl_versionStep :
    ∀ (refs acc : List String),
      refs.foldl versionStep acc = acc ++ resolveVersionsSpec refs := by
  intro refs
  induction refs with
  | nil =>
    intro acc
    simp [resolveVersionsSpec]
  | cons r t ih =>
    intro acc
    rw [List.foldl_cons]
    by_cases h1 : listStartsWith r.data tagHead.data
    · by_cases h2 : semverValid (String.mk (r.data.drop tagHead.length))
      · have hstep : versionStep acc r = acc ++ [String.mk (r.data.drop tagHead.length)] := by
          simp [versionStep, h1, h2]
        rw [hstep, ih]
        simp [resolveVersionsSpec, List.filterMap_cons, h1, h2]
      · have hstep : versionStep acc r = acc := by
          simp [versionStep, h1, h2]
        rw [hstep, ih]
        simp [resolveVersionsSpec, List.filterMap_cons, h1, h2]
    · have hstep : versionStep acc r = acc := by
        simp [versionStep, h1]
      rw [hstep, ih]
      simp [resolveVersionsSpec, List.filterMap_cons, h1]

/- Lemmas about per-version manifest collection. -/

theorem collectManifests_middle_none (env : Env) (repo v : String)
    (h : env.versionManifest repo v = none) (vs1 vs2 : List String) :
    collectManifests env repo (vs1 ++ v :: vs2) = collectManifests env repo (vs1 ++ vs2) := by
  simp [collectManifests, List.filterMap_append, List.filterMap_cons, h]

theorem collectManifests_congr (env1 env2 : Env) (repo : String)
    (h : ∀ v, env1.versionManifest repo v = env2.versionManifest repo v) :
    ∀ vs, collectManifests env1 repo vs = collectManifests env2 repo vs := by
  intro vs
  induction vs with
  | nil => rfl
  | cons v t ih =>
    show List.filterMap (fun x => env1.versionManifest repo x) (v :: t) =
      List.filterMap (fun x => env2.versionManifest repo x) (v :: t)
    rw [List.filterMap_cons, List.filterMap_cons, h v]
    have ih2 : List.filterMap (fun x => env1.versionManifest repo x) t =
        List.filterMap (fun x => env2.versionManifest repo x) t := ih
    cases env2.versionManifest repo v <;> simp only [ih2]

/- Lemmas about per-repository processing. -/

theorem processRepo_none (env : Env) (repo : String)
    (h : env.repoInfo repo = none ∨ env.headManifest repo = none ∨
      env.tagRefs repo = none) :
    processRepo env repo = none := by
  unfold processRepo
  rcases h with h | h | h <;> rw [h] <;>
    (cases env.repoInfo repo <;> cases env.headManifest repo <;>
      cases env.tagRefs repo <;> rfl)

theorem processRepo_some (env : Env) (repo : String) (ri : RepoInfo) (hm : Manifest)
    (refs : List String) (h1 : env.repoInfo repo = some ri)
    (h2 : env.headManifest repo = some hm) (h3 : env.tagRefs repo = some refs) :
    processRepo env repo =
      some (buildPackage hm.info ri (collectManifests env repo (fetchVersions refs)),
        buildPackageLL hm.info ri (collectManifests env repo (fetchVersions refs))) := by
  unfold processRepo
  rw [h1, h2, h3]

theorem processRepo_rel (env : Env) (r : String)
    (pq : IndexPackage × IndexPackageForLeviLauncher)
    (h : processRepo env r = some pq) : PkgRel pq.1 pq.2 := by
  cases h1 : env.repoInfo r with
  | none => rw [processRepo_none env r (Or.inl h1)] at h; cases h
  | some ri =>
    cases h2 : env.headManifest r with
    | none => rw [processRepo_none env r (Or.inr (Or.inl h2))] at h; cases h
    | some hm =>
      cases h3 : env.tagRefs r with
      | none => rw [processRepo_none env r (Or.inr (Or.inr h3))] at h; cases h
      | some refs =>
        rw [processRepo_some env r ri hm refs h1 h2 h3] at h
        injection h with h4
        subst h4
        exact ⟨hm.info, ri, collectManifests env r (fetchVersions refs), rfl, rfl⟩

theorem processRepo_congr (env1 env2 : Env) (r : String) (h : EnvAgree env1 env2 r) :
    processRepo env1 r = processRepo env2 r := by
  obtain ⟨h1, h2, h3, h4⟩ := h
  cases hri : env2.repoInfo r with
  | none =>
    rw [processRepo_none env1 r (Or.inl (h1.trans hri)),
      processRepo_none env2 r (Or.inl hri)]
  | some ri =>
    cases hhm : env2.headManifest r with
    | none =>
      rw [processRepo_none env1 r (Or.inr (Or.inl (h2.trans hhm))),
        processRepo_none env2 r (Or.inr (Or.inl hhm))]
    | some hm =>
      cases htr : env2.tagRefs r with
      | none =>
        rw [processRepo_none env1 r (Or.inr (Or.inr (h3.trans htr))),
          processRepo_none env2 r (Or.inr (Or.inr htr))]
      | some refs =>
        rw [processRepo_some env1 r ri hm refs (h1.trans hri) (h2.trans hhm) (h3.trans htr),
          processRepo_some env2 r ri hm refs hri hhm htr,
          collectManifests_congr env1 env2 r h4]

/- Lemmas about the repository loop. -/

theorem foldl_pipelineStep_alookup_none (env : Env) (repo : String)
    (hnone : processRepo env repo = none) :
    ∀ (rs : List String)
      (acc : List (String × IndexPackage) × List (String × IndexPackageForLeviLauncher)),
      alookup repo (rs.foldl (pipelineStep env) acc).1 = alookup repo acc.1 ∧
      alookup repo (rs.foldl (pipelineStep env) acc).2 = alookup repo acc.2 := by
  intro rs
  induction rs with
  | nil => intro acc; exact ⟨rfl, rfl⟩
  | cons r t ih =>
    intro acc
    rw [List.foldl_cons]
    have hstep1 : alookup repo (pipelineStep env acc r).1 = alookup repo acc.1 := by
      unfold pipelineStep
      cases hp : processRepo env r with
      | none => rfl
      | some pq =>
        have hne : ¬ r = repo := by
          intro e; rw [e, hnone] at hp; cases hp
        simp [alookup_dictInsert, hne]
    have hstep2 : alookup repo (pipelineStep env acc r).2 = alookup repo acc.2 := by
      unfold pipelineStep
      cases hp : processRepo env r with
      | none => rfl
      | some pq =>
        have hne : ¬ r = repo := by
          intro e; rw [e, hnone] at hp; cases hp
        simp [alookup_dictInsert, hne]
    obtain ⟨ihl, ihr⟩ := ih (pipelineStep env acc r)
    exact ⟨by rw [ihl, hstep1], by rw [ihr, hstep2]⟩

theorem runPipeline_skip (env : Env) (repo : String)
    (hnone : processRepo env repo = none) (rs1 rs2 : List String) :
    runPipeline env (rs1 ++ repo :: rs2) = runPipeline env (rs1 ++ rs2) := by
  unfold runPipeline
  rw [List.foldl_append, List.foldl_append, List.foldl_cons]
  congr 1
  unfold pipelineStep
  rw [hnone]

theorem foldl_pipelineStep_keys (env : Env) :
    ∀ (rs : List String)
      (acc : List (String × IndexPackage) × List (String × IndexPackageForLeviLauncher)),
      acc.1.map Prod.fst = acc.2.map Prod.fst →
      (rs.foldl (pipelineStep env) acc).1.map Prod.fst =
        (rs.foldl (pipelineStep env) acc).2.map Prod.fst := by
  intro rs
  induction rs with
  | nil => intro acc h; exact h
  | cons r t ih =>
    intro acc h
    rw [List.foldl_cons]
    apply ih
    unfold pipelineStep
    cases processRepo env r with
    | none => exact h
    | some pq => simp [map_fst_dictInsert, h]

theorem foldl_pipelineStep_rel (env : Env) :
    ∀ (rs : List String)
      (acc : List (String × IndexPackage) × List (String × IndexPackageForLeviLauncher)),
      (∀ r, OptRel (alookup r acc.1) (alookup r acc.2)) →
      ∀ r, OptRel (alookup r (rs.foldl (pipelineStep env) acc).1)
        (alookup r (rs.foldl (pipelineStep env) acc).2) := by
  intro rs
  induction rs with
  | nil => intro acc h; exact h
  | cons r0 t ih =>
    intro acc h
    rw [List.foldl_cons]
    apply ih
    intro r
    unfold pipelineStep
    cases hp : processRepo env r0 with
    | none => exact h r
    | some pq =>
      simp only [alookup_dictInsert]
      by_cases he : r0 = r
      · rw [if_pos he, if_pos he]
        exact processRepo_rel env r0 pq hp
      · rw [if_neg he, if_neg he]
        exact h r

theorem foldl_pipelineStep_congr (env1 env2 : Env) :
    ∀ (rs : List String), (∀ r ∈ rs, EnvAgree env1 env2 r) →
      ∀ (acc : List (String × IndexPackage) × List (String × IndexPackageForLeviLauncher)),
        rs.foldl (pipelineStep env1) acc = rs.foldl (pipelineStep env2) acc := by
  intro rs
  induction rs with
  | nil => intro _ acc; rfl
  | cons r t ih =>
    intro h acc
    rw [List.foldl_cons, List.foldl_cons]
    have hstep : pipelineStep env1 acc r = pipelineStep env2 acc r := by
      unfold pipelineStep
      rw [processRepo_congr env1 env2 r (h r (List.mem_cons_self r t))]
    rw [hstep]
    exact ih (fun x hx => h x (List.mem_cons_of_mem r hx)) _

/- Lemmas about the order-explicit pipeline. -/

theorem processRepoOrd_none (sigma : List String → List String) (env : Env) (repo : String)
    (h : env.repoInfo repo = none ∨ env.headManifest repo = none ∨
      env.tagRefs repo = none) :
    processRepoOrd sigma env repo = none := by
  unfold processRepoOrd
  rcases h with h | h | h <;> rw [h] <;>
    (cases env.repoInfo repo <;> cases env.headManifest repo <;>
      cases env.tagRefs repo <;> rfl)

theorem processRepoOrd_some (sigma : List String → List String) (env : Env) (repo : String)
    (ri : RepoInfo) (hm : Manifest) (refs : List String)
    (h1 : env.repoInfo repo = some ri) (h2 : env.headManifest repo = some hm)
    (h3 : env.tagRefs repo = some refs) :
    processRepoOrd sigma env repo =
      some (buildPackageOrd sigma hm.info ri (collectManifests env repo (fetchVersions refs)),
        buildPackageLLOrd sigma hm.info ri (collectManifests env repo (fetchVersions refs))) := by
  unfold processRepoOrd
  rw [h1, h2, h3]

theorem processRepoOrd_congr (sigma : List String → List String) (env1 env2 : Env)
    (r : String) (h : EnvAgree env1 env2 r) :
    processRepoOrd sigma env1 r = processRepoOrd sigma env2 r := by
  obtain ⟨h1, h2, h3, h4⟩ := h
  cases hri : env2.repoInfo r with
  | none =>
    rw [processRepoOrd_none sigma env1 r (Or.inl (h1.trans hri)),
      processRepoOrd_none sigma env2 r (Or.inl hri)]
  | some ri =>
    cases hhm : env2.headManifest r with
    | none =>
      rw [processRepoOrd_none sigma env1 r (Or.inr (Or.inl (h2.trans hhm))),
        processRepoOrd_none sigma env2 r (Or.inr (Or.inl hhm))]
    | some hm =>
      cases htr : env2.tagRefs r with
      | none =>
        rw [processRepoOrd_none sigma env1 r (Or.inr (Or.inr (h3.trans htr))),
          processRepoOrd_none sigma env2 r (Or.inr (Or.inr htr))]
      | some refs =>
        rw [processRepoOrd_some sigma env1 r ri hm refs
            (h1.trans hri) (h2.trans hhm) (h3.trans htr),
          processRepoOrd_some sigma env2 r ri hm refs hri hhm htr,
          collectManifests_congr env1 env2 r h4]

theorem foldl_pipelineStepOrd_congr (sigma : List String → List String) (env1 env2 : Env) :
    ∀ (rs : List String), (∀ r ∈ rs, EnvAgree env1 env2 r) →
      ∀ (acc : List (String × IndexPackage) × List (String × IndexPackageForLeviLauncher)),
        rs.foldl (pipelineStepOrd sigma env1) acc =
          rs.foldl (pipelineStepOrd sigma env2) acc := by
  intro rs
  induction rs with
  | nil => intro _ acc; rfl
  | cons r t ih =>
    intro h acc
    rw [List.foldl_cons, List.foldl_cons]
    have hstep : pipelineStepOrd sigma env1 acc r = pipelineStepOrd sigma env2 acc r := by
      unfold pipelineStepOrd
      rw [processRepoOrd_congr sigma env1 env2 r (h r (List.mem_cons_self r t))]
    rw [hstep]
    exact ih (fun x hx => h x (List.mem_cons_of_mem r hx)) _

theorem foldl_pipelineStepOrd_keys_pair (sigma1 sigma2 : List String → List String)
    (env : Env) :
    ∀ (rs : List String)
      (acc1 acc2 : List (String × IndexPackage) × List (String × IndexPackageForLeviLauncher)),
      acc1.1.map Prod.fst = acc2.1.map Prod.fst →
      acc1.2.map Prod.fst = acc2.2.map Prod.fst →
      (rs.foldl (pipelineStepOrd sigma1 env) acc1).1.map Prod.fst =
        (rs.foldl (pipelineStepOrd sigma2 env) acc2).1.map Prod.fst ∧
      (rs.foldl (pipelineStepOrd sigma1 env) acc1).2.map Prod.fst =
        (rs.foldl (pipelineStepOrd sigma2 env) acc2).2.map Prod.fst := by
  intro rs
  induction rs with
  | nil => intro acc1 acc2 h1 h2; exact ⟨h1, h2⟩
  | cons r t ih =>
    intro acc1 acc2 h1 h2
    rw [List.foldl_cons, List.foldl_cons]
    have hstep : (pipelineStepOrd sigma1 env acc1 r).1.map Prod.fst =
        (pipelineStepOrd sigma2 env acc2 r).1.map Prod.fst ∧
        (pipelineStepOrd sigma1 env acc1 r).2.map Prod.fst =
          (pipelineStepOrd sigma2 env acc2 r).2.map Prod.fst := by
      unfold pipelineStepOrd
      cases hri : env.repoInfo r with
      | none =>
        rw [processRepoOrd_none sigma1 env r (Or.inl hri),
          processRepoOrd_none sigma2 env r (Or.inl hri)]
        exact ⟨h1, h2⟩
      | some ri =>
        cases hhm : env.headManifest r with
        | none =>
          rw [processRepoOrd_none sigma1 env r (Or.inr (Or.inl hhm)),
            processRepoOrd_none sigma2 env r (Or.inr (Or.inl hhm))]
          exact ⟨h1, h2⟩
        | some hm =>
          cases htr : env.tagRefs r with
          | none =>
            rw [processRepoOrd_none sigma1 env r (Or.inr (Or.inr htr)),
              processRepoOrd_none sigma2 env r (Or.inr (Or.inr htr))]
            exact ⟨h1, h2⟩
          | some refs =>
            rw [processRepoOrd_some sigma1 env r ri hm refs hri hhm htr,
              processRepoOrd_some sigma2 env r ri hm refs hri hhm htr]
            constructor <;> simp [map_fst_dictInsert, h1, h2]
    exact ih _ _ hstep.1 hstep.2

theorem foldl_pipelineStepOrd_rel_pair (sigma1 sigma2 : List String → List String)
    (env : Env) :
    ∀ (rs : List String)
      (acc1 acc2 : List (String × IndexPackage) × List (String × IndexPackageForLeviLauncher)),
      (∀ r, EntriesRelOrd sigma1 sigma2 (alookup r acc1.1) (alookup r acc1.2)
        (alookup r acc2.1) (alookup r acc2.2)) →
      ∀ r, EntriesRelOrd sigma1 sigma2
        (alookup r (rs.foldl (pipelineStepOrd sigma1 env) acc1).1)
        (alookup r (rs.foldl (pipelineStepOrd sigma1 env) acc1).2)
        (alookup r (rs.foldl (pipelineStepOrd sigma2 env) acc2).1)
        (alookup r (rs.foldl (pipelineStepOrd sigma2 env) acc2).2) := by
  intro rs
  induction rs with
  | nil => intro acc1 acc2 h; exact h
  | cons r0 t ih =>
    intro acc1 acc2 h
    rw [List.foldl_cons, List.foldl_cons]
    apply ih
    intro r
    unfold pipelineStepOrd
    cases hri : env.repoInfo r0 with
    | none =>
      rw [processRepoOrd_none sigma1 env r0 (Or.inl hri),
        processRepoOrd_none sigma2 env r0 (Or.inl hri)]
      exact h r
    | some ri =>
      cases hhm : env.headManifest r0 with
      | none =>
        rw [processRepoOrd_none sigma1 env r0 (Or.inr (Or.inl hhm)),
          processRepoOrd_none sigma2 env r0 (Or.inr (Or.inl hhm))]
        exact h r
      | some hm =>
        cases htr : env.tagRefs r0 with
        | none =>
          rw [processRepoOrd_none sigma1 env r0 (Or.inr (Or.inr htr)),
            processRepoOrd_none sigma2 env r0 (Or.inr (Or.inr htr))]
          exact h r
        | some refs =>
          rw [processRepoOrd_some sigma1 env r0 ri hm refs hri hhm htr,
            processRepoOrd_some sigma2 env r0 ri hm refs hri hhm htr]
          simp only [alookup_dictInsert]
          by_cases he : r0 = r
          · rw [if_pos he, if_pos he, if_pos he, if_pos he]
            exact ⟨hm.info, ri, collectManifests env r0 (fetchVersions refs),
              rfl, rfl, rfl, rfl⟩
          · rw [if_neg he, if_neg he, if_neg he, if_neg he]
            exact h r

theorem runPipeline_eq_runPipelineOrd (env : Env) (rs : List String) :
    runPipeline env rs = runPipelineOrd dedupFirst env rs := rfl

theorem setOrder_dedupFirst : SetOrder dedupFirst := fun _ => List.Perm.refl _

theorem setOrder_revOrder : SetOrder revOrder := fun xs => (dedupFirst xs).reverse_perm

theorem labelsOfOrd_perm (sigma1 sigma2 : List String → List String)
    (hs1 : SetOrder sigma1) (hs2 : SetOrder sigma2) (ms : List Manifest) :
    (labelsOfOrd sigma1 ms).Perm (labelsOfOrd sigma2 ms) :=
  (hs1 _).trans (hs2 _).symm

/- Lemmas about entry construction. -/

theorem mem_llVariantVersions (var ver : String) (ms : List Manifest) :
    ver ∈ (llVariantVersions var ms).map Prod.fst ↔ ver ∈ variantVersions var ms := by
  unfold llVariantVersions variantVersions
  rw [keys_foldl_dictInsert Manifest.version
    (fun m => IndexVersionForLeviLauncher.mk (variantDeps var m))]
  rw [mem_foldl_insertKey]
  simp

theorem map_fst_pairList {β : Type} (f : String → β) (l : List String) :
    (l.map fun x => (x, f x)).map Prod.fst = l := by
  induction l with
  | nil => rfl
  | cons x t ih => simp [ih]

theorem pairList_keys_perm {β : Type} (f : String → β) (l1 l2 : List String)
    (hperm : l1.Perm l2) :
    ((l1.map fun x => (x, f x)).map Prod.fst).Perm
      ((l2.map fun x => (x, f x)).map Prod.fst) := by
  rw [map_fst_pairList, map_fst_pairList]
  exact hperm

theorem pairList_lookup_eq {β : Type} (f : String → β) (l1 l2 : List String)
    (hperm : l1.Perm l2) (lab : String) :
    alookup lab (l1.map fun x => (x, f x)) = alookup lab (l2.map fun x => (x, f x)) := by
  rw [alookup_map_pair, alookup_map_pair]
  by_cases h : lab ∈ l1
  · rw [if_pos h, if_pos (hperm.mem_iff.mp h)]
  · rw [if_neg h, if_neg (fun hh => h (hperm.mem_iff.mpr hh))]

theorem buildPackage_keys (info : ManifestInfo) (ri : RepoInfo) (ms : List Manifest) :
    (buildPackage info ri ms).variants.map Prod.fst = labelsOf ms ∧
    (buildPackageLL info ri ms).variants.map Prod.fst = labelsOf ms := by
  constructor
  · exact map_fst_pairList (fun var => IndexVariant.mk (variantVersions var ms)) (labelsOf ms)
  · exact map_fst_pairList
      (fun var => IndexVariantForLeviLauncher.mk (llVariantVersions var ms)) (labelsOf ms)

theorem buildPackage_lookup (info : ManifestInfo) (ri : RepoInfo) (ms : List Manifest)
    (lab : String) :
    alookup lab (buildPackage info ri ms).variants =
      if lab ∈ labelsOf ms then some (IndexVariant.mk (variantVersions lab ms)) else none := by
  simp [buildPackage, alookup_map_pair]

theorem buildPackageLL_lookup (info : ManifestInfo) (ri : RepoInfo) (ms : List Manifest)
    (lab : String) :
    alookup lab (buildPackageLL info ri ms).variants =
      if lab ∈ labelsOf ms then
        some (IndexVariantForLeviLauncher.mk (llVariantVersions lab ms))
      else none := by
  simp [buildPackageLL, alookup_map_pair]

theorem hasLabel_dup (var : String) (minfo : ManifestInfo) (mver : String)
    (v : ManifestVariant) (rest : List ManifestVariant) :
    hasLabel var ⟨minfo, mver, v :: v :: rest⟩ = hasLabel var ⟨minfo, mver, v :: rest⟩ := by
  simp only [hasLabel, List.any_cons]
  cases (v.label == var) <;> simp

theorem filter_hasLabel_middle (var : String) (ms1 ms2 : List Manifest) (m : Manifest)
    (h : hasLabel var m = false) :
    (ms1 ++ m :: ms2).filter (hasLabel var) = (ms1 ++ ms2).filter (hasLabel var) := by
  simp [List.filter_append, List.filter_cons, h]

theorem variantVersions_middle_nil (var : String) (ms1 ms2 : List Manifest)
    (minfo : ManifestInfo) (mver : String) :
    variantVersions var (ms1 ++ (⟨minfo, mver, []⟩ : Manifest) :: ms2) =
      variantVersions var (ms1 ++ ms2) := by
  unfold variantVersions
  rw [filter_hasLabel_middle var ms1 ms2 (⟨minfo, mver, []⟩ : Manifest) rfl]

theorem llVariantVersions_middle_nil (var : String) (ms1 ms2 : List Manifest)
    (minfo : ManifestInfo) (mver : String) :
    llVariantVersions var (ms1 ++ (⟨minfo, mver, []⟩ : Manifest) :: ms2) =
      llVariantVersions var (ms1 ++ ms2) := by
  unfold llVariantVersions
  rw [filter_hasLabel_middle var ms1 ms2 (⟨minfo, mver, []⟩ : Manifest) rfl]

theorem labelsOf_middle_nil (ms1 ms2 : List Manifest) (minfo : ManifestInfo) (mver : String) :
    labelsOf (ms1 ++ (⟨minfo, mver, []⟩ : Manifest) :: ms2) = labelsOf (ms1 ++ ms2) := by
  simp [labelsOf]

/- Claim theorems. -/

/-- C1: the claim says a manifest fetch never invokes the migration
collaborator when the raw bytes already satisfy the current schema, and on
validation failure invokes it once and retries validation.  The code of
_fetch_manifest always invokes the migration tool — even at raw bytes that a
validation oracle accepts as they are, the tool runs exactly once and
validation runs only against the migrated output.  This is the behavior the
first test of src/test_main.py rejects (it asserts zero migration calls for
already-valid content). -/
theorem fetchManifest_always_migrates :
    validateC1 rawValidBytes = some mHead ∧
    (fetchManifestRaw validateC1 migrateC1 rawValidBytes).2 = 1 ∧
    ∀ (validate : String → Option Manifest) (migrate : String → Option String)
      (raw : String), (fetchManifestRaw validate migrate raw).2 = 1 := by
  refine ⟨by simp [validateC1], rfl, ?_⟩
  intro validate migrate raw
  unfold fetchManifestRaw
  cases migrate raw <;> rfl

/-- C2 counterexample: under envC2 the head manifest validates and zero
versions survive, yet the final index does contain an entry for the
repository (with an empty variants map), where the claim requires the
repository to be absent. -/
theorem zero_versions_repo_present :
    alookup repoDemo (runPipeline envC2 [repoDemo]).1 =
      some ⟨infoHead, riDemo.stargazer_count, riDemo.updated_at, []⟩ ∧
    alookup repoDemo (runPipeline envC2 [repoDemo]).2 =
      some ⟨infoHead, riDemo.stargazer_count, riDemo.updated_at, []⟩ := by
  exact ⟨rfl, rfl⟩

/-- C2 amended: a repository whose head manifest validated but for which zero
versions survived fetching/validation/migration still receives an entry in
both final indexes — one whose variants map is empty — rather than being
absent. -/
theorem zero_versions_repo_entry_empty
    (env : Env) (repo : String) (ri : RepoInfo) (hm : Manifest) (refs : List String)
    (h1 : env.repoInfo repo = some ri) (h2 : env.headManifest repo = some hm)
    (h3 : env.tagRefs repo = some refs)
    (h4 : collectManifests env repo (fetchVersions refs) = []) :
    processRepo env repo =
      some (⟨hm.info, ri.stargazer_count, ri.updated_at, []⟩,
        ⟨hm.info, ri.stargazer_count, ri.updated_at, []⟩) ∧
    runPipeline env [repo] =
      ([(repo, ⟨hm.info, ri.stargazer_count, ri.updated_at, []⟩)],
        [(repo, ⟨hm.info, ri.stargazer_count, ri.updated_at, []⟩)]) := by
  have hp : processRepo env repo =
      some ((⟨hm.info, ri.stargazer_count, ri.updated_at, []⟩ : IndexPackage),
        (⟨hm.info, ri.stargazer_count, ri.updated_at, []⟩ : IndexPackageForLeviLauncher)) := by
    rw [processRepo_some env repo ri hm refs h1 h2 h3, h4]
    rfl
  refine ⟨hp, ?_⟩
  show pipelineStep env ([], []) repo = _
  unfold pipelineStep
  rw [hp]
  rfl

/-- Witness for the C2 amended theorem at a concrete environment. -/
theorem zero_versions_repo_entry_empty_witness :
    processRepo envC2 repoDemo =
      some (⟨mHead.info, riDemo.stargazer_count, riDemo.updated_at, []⟩,
        ⟨mHead.info, riDemo.stargazer_count, riDemo.updated_at, []⟩) ∧
    runPipeline envC2 [repoDemo] =
      ([(repoDemo, ⟨mHead.info, riDemo.stargazer_count, riDemo.updated_at, []⟩)],
        [(repoDemo, ⟨mHead.info, riDemo.stargazer_count, riDemo.updated_at, []⟩)]) :=
  zero_versions_repo_entry_empty envC2 repoDemo riDemo mHead [] rfl rfl rfl rfl

/-- C3 amended: the version resolver keeps exactly the refs of the form
refs/tags/v followed by a parseable semantic version, discarding non-matching
and unparseable refs without error, but it returns the survivors in input
order — it does not sort them. -/
theorem fetchVersions_filters_in_input_order (refs : List String) :
    fetchVersions refs = resolveVersionsSpec refs := by
  unfold fetchVersions
  rw [foldl_versionStep]
  rfl

/-- C3 counterexample: on the spec's own resolver scenario the code returns
the versions in tag-listing order, not ascending semver order — 1.2.0 is
listed before 1.1.0-rc1 although 1.1.0-rc1 has lower semver precedence. -/
theorem fetchVersions_output_not_sorted :
    fetchVersions demoRefs = [verOne, v120, v110rc1] ∧
    semverAscending (fetchVersions demoRefs) = false ∧
    semverLeB v110rc1 v120 = true := by
  exact ⟨by decide, by decide, by decide⟩

/-- C4: a per-version fetch/validate/migrate failure removes only that
version's manifest from the reduction: the collected manifest list equals the
one for the sibling versions alone, the entries built from it are unchanged,
and the repository still produces an index entry whenever its metadata, head
manifest and tag listing succeeded. -/
theorem version_failure_isolated (env : Env) (repo v : String)
    (h : env.versionManifest repo v = none) :
    (∀ vs1 vs2, collectManifests env repo (vs1 ++ v :: vs2) =
      collectManifests env repo (vs1 ++ vs2)) ∧
    (∀ info ri vs1 vs2,
      buildPackage info ri (collectManifests env repo (vs1 ++ v :: vs2)) =
        buildPackage info ri (collectManifests env repo (vs1 ++ vs2)) ∧
      buildPackageLL info ri (collectManifests env repo (vs1 ++ v :: vs2)) =
        buildPackageLL info ri (collectManifests env repo (vs1 ++ vs2))) ∧
    (∀ ri hm refs, env.repoInfo repo = some ri → env.headManifest repo = some hm →
      env.tagRefs repo = some refs → (processRepo env repo).isSome = true) := by
  refine ⟨fun vs1 vs2 => collectManifests_middle_none env repo v h vs1 vs2, ?_, ?_⟩
  · intro info ri vs1 vs2
    rw [collectManifests_middle_none env repo v h vs1 vs2]
    exact ⟨rfl, rfl⟩
  · intro ri hm refs h1 h2 h3
    rw [processRepo_some env repo ri hm refs h1 h2 h3]
    rfl

/-- Witness for C4 at a concrete environment: version 2.0.0 fails, version
1.0.0 survives, and the repository still yields an entry. -/
theorem version_failure_isolated_witness :
    collectManifests envC4 repoDemo ([verOne] ++ verTwo :: []) =
      collectManifests envC4 repoDemo ([verOne] ++ []) ∧
    (processRepo envC4 repoDemo).isSome = true :=
  ⟨(version_failure_isolated envC4 repoDemo verTwo (by decide)).1 [verOne] [],
    (version_failure_isolated envC4 repoDemo verTwo (by decide)).2.2
      riDemo mHead tagRefsC4 rfl rfl rfl⟩

/-- C5: a repository whose head-manifest fetch or version resolution fails is
absent from both output indexes, and the failure is absorbed: the run over any
repository list proceeds exactly as if the failed repository had not been
discovered. -/
theorem repo_failure_isolated (env : Env) (repo : String)
    (h : env.headManifest repo = none ∨ env.tagRefs repo = none) :
    processRepo env repo = none ∧
    (∀ rs, alookup repo (runPipeline env rs).1 = none ∧
      alookup repo (runPipeline env rs).2 = none) ∧
    (∀ rs1 rs2, runPipeline env (rs1 ++ repo :: rs2) = runPipeline env (rs1 ++ rs2)) := by
  have hnone : processRepo env repo = none := by
    rcases h with h | h
    · exact processRepo_none env repo (Or.inr (Or.inl h))
    · exact processRepo_none env repo (Or.inr (Or.inr h))
  refine ⟨hnone, ?_, fun rs1 rs2 => runPipeline_skip env repo hnone rs1 rs2⟩
  intro rs
  have hk := foldl_pipelineStep_alookup_none env repo hnone rs ([], [])
  unfold runPipeline
  exact ⟨hk.1, hk.2⟩

/-- Witness for C5 at a concrete environment whose head-manifest fetches all
fail. -/
theorem repo_failure_isolated_witness :
    processRepo envC5 repoDemo = none ∧
    alookup repoDemo (runPipeline envC5 [repoDemo, repoB]).1 = none ∧
    runPipeline envC5 ([repoB] ++ repoDemo :: []) = runPipeline envC5 ([repoB] ++ []) := by
  have h := repo_failure_isolated envC5 repoDemo (Or.inl rfl)
  exact ⟨h.1, (h.2.1 [repoDemo, repoB]).1, h.2.2 [repoB] []⟩

set_option maxRecDepth 8000 in
/-- C6 counterexample: with identical per-repository upstream data the
serialized bytes change under either source of iteration order, so neither
half of the claim holds.  Permuting the discovery order of the same repository
set permutes the packages keys and changes the bytes; and two admissible
set-iteration orders for the variants set — as CPython's per-process
string-hash salting produces across two runs — permute an entry's variants
keys and change the bytes even with the discovery order fixed. -/
theorem serialization_follows_iteration_order :
    (([repoDemo, repoB] : List String).Perm [repoB, repoDemo]) ∧
    serializeIndex (Index.mk (runPipeline envC6 [repoDemo, repoB]).1) ≠
      serializeIndex (Index.mk (runPipeline envC6 [repoB, repoDemo]).1) ∧
    (revOrder labelSeqC6).Perm (dedupFirst labelSeqC6) ∧
    serializeIndex (Index.mk (runPipelineOrd dedupFirst envC6c [repoDemo]).1) ≠
      serializeIndex (Index.mk (runPipelineOrd revOrder envC6c [repoDemo]).1) := by
  exact ⟨by decide, by decide, by decide, by decide⟩

/-- C6 amended: the pipeline output is a deterministic function of the
upstream responses together with the runtime's set-iteration order.  First:
two runs whose oracles agree on every discovered repository and that share one
set-iteration order serialize byte-identically, for both flavors.  Second: two
runs with the same responses but different admissible set-iteration orders
agree exactly up to the per-entry order of the variants keys — identical
packages key sequences in both flavors, per-repository permuted variant-label
key lists, and identical per-label variant data. -/
theorem pipeline_deterministic_up_to_set_order
    (sigma1 sigma2 : List String → List String) (env1 env2 : Env) (repos : List String)
    (hs1 : SetOrder sigma1) (hs2 : SetOrder sigma2)
    (hagree : ∀ r ∈ repos, EnvAgree env1 env2 r) :
    (serializeIndex (Index.mk (runPipelineOrd sigma1 env1 repos).1) =
        serializeIndex (Index.mk (runPipelineOrd sigma1 env2 repos).1) ∧
      serializeIndexLL (IndexForLeviLauncher.mk (runPipelineOrd sigma1 env1 repos).2) =
        serializeIndexLL (IndexForLeviLauncher.mk (runPipelineOrd sigma1 env2 repos).2)) ∧
    ((runPipelineOrd sigma1 env1 repos).1.map Prod.fst =
        (runPipelineOrd sigma2 env1 repos).1.map Prod.fst ∧
      (runPipelineOrd sigma1 env1 repos).2.map Prod.fst =
        (runPipelineOrd sigma2 env1 repos).2.map Prod.fst) ∧
    (∀ r pk1 pk2, alookup r (runPipelineOrd sigma1 env1 repos).1 = some pk1 →
        alookup r (runPipelineOrd sigma2 env1 repos).1 = some pk2 →
        (pk1.variants.map Prod.fst).Perm (pk2.variants.map Prod.fst) ∧
        ∀ lab, alookup lab pk1.variants = alookup lab pk2.variants) ∧
    (∀ r pl1 pl2, alookup r (runPipelineOrd sigma1 env1 repos).2 = some pl1 →
        alookup r (runPipelineOrd sigma2 env1 repos).2 = some pl2 →
        (pl1.variants.map Prod.fst).Perm (pl2.variants.map Prod.fst) ∧
        ∀ lab, alookup lab pl1.variants = alookup lab pl2.variants) := by
  have hrel : ∀ r, EntriesRelOrd sigma1 sigma2
      (alookup r (runPipelineOrd sigma1 env1 repos).1)
      (alookup r (runPipelineOrd sigma1 env1 repos).2)
      (alookup r (runPipelineOrd sigma2 env1 repos).1)
      (alookup r (runPipelineOrd sigma2 env1 repos).2) := by
    unfold runPipelineOrd
    exact foldl_pipelineStepOrd_rel_pair sigma1 sigma2 env1 repos ([], []) ([], [])
      (fun r0 => trivial)
  refine ⟨?_, ?_, ?_, ?_⟩
  · have hrun : runPipelineOrd sigma1 env1 repos = runPipelineOrd sigma1 env2 repos := by
      unfold runPipelineOrd
      exact foldl_pipelineStepOrd_congr sigma1 env1 env2 repos hagree ([], [])
    rw [hrun]
    exact ⟨rfl, rfl⟩
  · unfold runPipelineOrd
    exact foldl_pipelineStepOrd_keys_pair sigma1 sigma2 env1 repos ([], []) ([], []) rfl rfl
  · intro r pk1 pk2 h1 h2
    have hr := hrel r
    rw [h1, h2] at hr
    cases hb1 : alookup r (runPipelineOrd sigma1 env1 repos).2 with
    | none => rw [hb1] at hr; exact ((hr : False).elim)
    | some pl1 =>
      rw [hb1] at hr
      cases hb2 : alookup r (runPipelineOrd sigma2 env1 repos).2 with
      | none => rw [hb2] at hr; exact ((hr : False).elim)
      | some pl2 =>
        rw [hb2] at hr
        obtain ⟨info, ri, ms, e1, f1, e2, f2⟩ :=
          (hr : ∃ info ri ms,
            pk1 = buildPackageOrd sigma1 info ri ms ∧
            pl1 = buildPackageLLOrd sigma1 info ri ms ∧
            pk2 = buildPackageOrd sigma2 info ri ms ∧
            pl2 = buildPackageLLOrd sigma2 info ri ms)
        subst e1; subst e2
        constructor
        · exact pairList_keys_perm (fun var => IndexVariant.mk (variantVersions var ms))
            (labelsOfOrd sigma1 ms) (labelsOfOrd sigma2 ms)
            (labelsOfOrd_perm sigma1 sigma2 hs1 hs2 ms)
        · intro lab
          exact pairList_lookup_eq (fun var => IndexVariant.mk (variantVersions var ms))
            (labelsOfOrd sigma1 ms) (labelsOfOrd sigma2 ms)
            (labelsOfOrd_perm sigma1 sigma2 hs1 hs2 ms) lab
  · intro r pl1 pl2 h1 h2
    have hr := hrel r
    rw [h1, h2] at hr
    cases hb1 : alookup r (runPipelineOrd sigma1 env1 repos).1 with
    | none => rw [hb1] at hr; exact ((hr : False).elim)
    | some pk1 =>
      rw [hb1] at hr
      cases hb2 : alookup r (runPipelineOrd sigma2 env1 repos).1 with
      | none => rw [hb2] at hr; exact ((hr : False).elim)
      | some pk2 =>
        rw [hb2] at hr
        obtain ⟨info, ri, ms, e1, f1, e2, f2⟩ :=
          (hr : ∃ info ri ms,
            pk1 = buildPackageOrd sigma1 info ri ms ∧
            pl1 = buildPackageLLOrd sigma1 info ri ms ∧
            pk2 = buildPackageOrd sigma2 info ri ms ∧
            pl2 = buildPackageLLOrd sigma2 info ri ms)
        subst f1; subst f2
        constructor
        · exact pairList_keys_perm
            (fun var => IndexVariantForLeviLauncher.mk (llVariantVersions var ms))
            (labelsOfOrd sigma1 ms) (labelsOfOrd sigma2 ms)
            (labelsOfOrd_perm sigma1 sigma2 hs1 hs2 ms)
        · intro lab
          exact pairList_lookup_eq
            (fun var => IndexVariantForLeviLauncher.mk (llVariantVersions var ms))
            (labelsOfOrd sigma1 ms) (labelsOfOrd sigma2 ms)
            (labelsOfOrd_perm sigma1 sigma2 hs1 hs2 ms) lab

/-- Witness for the C6 amended theorem at concrete environments and two
concrete admissible set-iteration orders. -/
theorem pipeline_deterministic_up_to_set_order_witness :
    serializeIndex (Index.mk (runPipelineOrd dedupFirst envC6c [repoDemo]).1) =
      serializeIndex (Index.mk (runPipelineOrd dedupFirst envC6d [repoDemo]).1) ∧
    (runPipelineOrd dedupFirst envC6c [repoDemo]).1.map Prod.fst =
      (runPipelineOrd revOrder envC6c [repoDemo]).1.map Prod.fst ∧
    (pkgD1.variants.map Prod.fst).Perm (pkgD2.variants.map Prod.fst) ∧
    alookup linuxLabel pkgD1.variants = alookup linuxLabel pkgD2.variants := by
  have h := pipeline_deterministic_up_to_set_order dedupFirst revOrder envC6c envC6d
    [repoDemo] setOrder_dedupFirst setOrder_revOrder
    (by
      intro r hr
      have hrd : r = repoDemo := by simpa using hr
      subst hrd
      exact ⟨by decide, rfl, rfl, fun v => rfl⟩)
  have h2 := h.2.2.1 repoDemo pkgD1 pkgD2 (by decide) (by decide)
  exact ⟨h.1.1, h.2.1.1, h2.1, h2.2 linuxLabel⟩

/-- C7 counterexample: _cleanup runs first and deletes the whole base
directory, so a run that then fails fatally (discovery raises before anything
else happens) leaves the filesystem without the previously valid index — the
prior document at the target path is not preserved.  Also, _save_index is a
single direct write: no temporary path, no rename. -/
theorem fatal_run_loses_prior_index :
    alookup indexPath [(indexPath, priorContent)] = some priorContent ∧
    alookup indexPath (applyOps [(indexPath, priorContent)] mainFatalOps) = none ∧
    ((saveIndexOps (Index.mk [])).all fun op => !(isRenameOp op)) = true ∧
    saveIndexOps (Index.mk []) = [FsOp.write indexPath (serializeIndex (Index.mk []))] := by
  exact ⟨by decide, by decide, by decide, rfl⟩

/-- C7 amended: _save_index overwrites the target path directly with a single
write (no temporary file and no rename), leaving exactly the serialized
document there; and the startup cleanup removes the base directory tree, so a
run that fails fatally after startup leaves no previous index at the target
path rather than leaving it unmodified. -/
theorem index_write_direct (i : Index) (fs : List (String × String)) :
    applyOps fs (saveIndexOps i) = dictInsert fs indexPath (serializeIndex i) ∧
    alookup indexPath (applyOps fs (saveIndexOps i)) = some (serializeIndex i) ∧
    ((saveIndexOps i).all fun op => !(isRenameOp op)) = true ∧
    alookup indexPath (applyOps fs mainFatalOps) = none := by
  refine ⟨rfl, ?_, rfl, ?_⟩
  · show alookup indexPath (dictInsert fs indexPath (serializeIndex i)) = _
    rw [alookup_dictInsert]
    simp
  · show alookup indexPath
      (fs.filter fun f => !(listStartsWith f.1.data baseDir.data)) = none
    exact alookup_filter_none _ indexPath
      (fun v => by
        show (!(listStartsWith indexPath.data baseDir.data)) = false
        decide) fs

/-- C8: the LeviLauncher index is derived from the same collected data as the
main index: the two final package dicts have identical key sequences, and for
one repository the entries expose identical variant-label sequences and, per
label, the same set of versions. -/
theorem both_flavors_agree (env : Env) (rs : List String) :
    (runPipeline env rs).1.map Prod.fst = (runPipeline env rs).2.map Prod.fst ∧
    ∀ r pk pl, alookup r (runPipeline env rs).1 = some pk →
      alookup r (runPipeline env rs).2 = some pl →
      pk.variants.map Prod.fst = pl.variants.map Prod.fst ∧
      ∀ lab vv lv, alookup lab pk.variants = some vv →
        alookup lab pl.variants = some lv →
        ∀ ver, ver ∈ vv.versions ↔ ver ∈ lv.versions.map Prod.fst := by
  constructor
  · unfold runPipeline
    exact foldl_pipelineStep_keys env rs ([], []) rfl
  · intro r pk pl h1 h2
    have hrel : OptRel (alookup r (runPipeline env rs).1)
        (alookup r (runPipeline env rs).2) := by
      unfold runPipeline
      exact foldl_pipelineStep_rel env rs ([], []) (fun r0 => trivial) r
    rw [h1, h2] at hrel
    have hrel2 : PkgRel pk pl := hrel
    obtain ⟨info, ri, ms, hpk, hpl⟩ := hrel2
    subst hpk; subst hpl
    constructor
    · rw [(buildPackage_keys info ri ms).1, (buildPackage_keys info ri ms).2]
    · intro lab vv lv hv1 hv2
      rw [buildPackage_lookup] at hv1
      rw [buildPackageLL_lookup] at hv2
      by_cases hm : lab ∈ labelsOf ms
      · rw [if_pos hm] at hv1 hv2
        injection hv1 with hv1
        injection hv2 with hv2
        subst hv1; subst hv2
        intro ver
        exact (mem_llVariantVersions lab ver ms).symm
      · rw [if_neg hm] at hv1
        cases hv1

/-- Witness for C8 at a concrete environment with one surviving version. -/
theorem both_flavors_agree_witness :
    (runPipeline envC4 [repoDemo]).1.map Prod.fst =
      (runPipeline envC4 [repoDemo]).2.map Prod.fst ∧
    pkgC8.variants.map Prod.fst = pkgC8LL.variants.map Prod.fst ∧
    (verOne ∈ varC8.versions ↔ verOne ∈ varC8LL.versions.map Prod.fst) := by
  have h := both_flavors_agree envC4 [repoDemo]
  have h2 := h.2 repoDemo pkgC8 pkgC8LL (by decide) (by decide)
  exact ⟨h.1, h2.1, h2.2 emptyStr varC8 varC8LL (by decide) (by decide) verOne⟩

/-- C9: a version manifest with an empty variant list contributes no version
to any variant bucket, and its presence leaves both flavor entries exactly as
they would be without it — so the repository keeps its entry and whatever the
sibling versions contribute. -/
theorem empty_variant_manifest_is_noop
    (pinfo : ManifestInfo) (ri : RepoInfo) (ms1 ms2 : List Manifest)
    (minfo : ManifestInfo) (mver : String) :
    (∀ var, variantVersions var (ms1 ++ (⟨minfo, mver, []⟩ : Manifest) :: ms2) =
      variantVersions var (ms1 ++ ms2)) ∧
    buildPackage pinfo ri (ms1 ++ (⟨minfo, mver, []⟩ : Manifest) :: ms2) =
      buildPackage pinfo ri (ms1 ++ ms2) ∧
    buildPackageLL pinfo ri (ms1 ++ (⟨minfo, mver, []⟩ : Manifest) :: ms2) =
      buildPackageLL pinfo ri (ms1 ++ ms2) := by
  refine ⟨fun var => variantVersions_middle_nil var ms1 ms2 minfo mver, ?_, ?_⟩
  · have hf : (fun var => (var, IndexVariant.mk
        (variantVersions var (ms1 ++ (⟨minfo, mver, []⟩ : Manifest) :: ms2)))) =
        (fun var => (var, IndexVariant.mk (variantVersions var (ms1 ++ ms2)))) :=
      funext fun var => by rw [variantVersions_middle_nil]
    unfold buildPackage
    rw [labelsOf_middle_nil, hf]
  · have hf : (fun var => (var, IndexVariantForLeviLauncher.mk
        (llVariantVersions var (ms1 ++ (⟨minfo, mver, []⟩ : Manifest) :: ms2)))) =
        (fun var => (var, IndexVariantForLeviLauncher.mk
          (llVariantVersions var (ms1 ++ ms2)))) :=
      funext fun var => by rw [llVariantVersions_middle_nil]
    unfold buildPackageLL
    rw [labelsOf_middle_nil, hf]

/-- C10: a version manifest contributes its version to a bucket at most once:
declaring the same label on two variant entries yields the same bucket
contents (main index) and the same version keys (LeviLauncher index) as
declaring it once, and one manifest alone never contributes more than one
element to a bucket. -/
theorem duplicate_label_counted_once
    (var : String) (ms1 ms2 : List Manifest) (minfo : ManifestInfo) (mver : String)
    (v : ManifestVariant) (rest : List ManifestVariant) :
    variantVersions var (ms1 ++ (⟨minfo, mver, v :: v :: rest⟩ : Manifest) :: ms2) =
      variantVersions var (ms1 ++ (⟨minfo, mver, v :: rest⟩ : Manifest) :: ms2) ∧
    (llVariantVersions var
        (ms1 ++ (⟨minfo, mver, v :: v :: rest⟩ : Manifest) :: ms2)).map Prod.fst =
      (llVariantVersions var
        (ms1 ++ (⟨minfo, mver, v :: rest⟩ : Manifest) :: ms2)).map Prod.fst ∧
    ∀ m : Manifest, (variantVersions var [m]).length ≤ 1 := by
  have hvm : ((ms1 ++ (⟨minfo, mver, v :: v :: rest⟩ : Manifest) :: ms2).filter
      (hasLabel var)).map Manifest.version =
    ((ms1 ++ (⟨minfo, mver, v :: rest⟩ : Manifest) :: ms2).filter
      (hasLabel var)).map Manifest.version := by
    rw [List.filter_append, List.filter_append, List.filter_cons, List.filter_cons,
      hasLabel_dup]
    cases hasLabel var (⟨minfo, mver, v :: rest⟩ : Manifest) <;> simp
  refine ⟨hvm, ?_, ?_⟩
  · unfold llVariantVersions
    rw [keys_foldl_dictInsert Manifest.version
        (fun m => IndexVersionForLeviLauncher.mk (variantDeps var m)),
      keys_foldl_dictInsert Manifest.version
        (fun m => IndexVersionForLeviLauncher.mk (variantDeps var m)),
      hvm]
  · intro m
    unfold variantVersions
    cases h : hasLabel var m <;> simp [List.filter_cons, h]

/-- Sanity checks of the semantic-version grammar embedding against known
valid and invalid version strings, and of prerelease precedence. -/
theorem semver_grammar_sanity :
    (["1.2.3", "1.1.0-rc1", "1.0.0+build.7"].all semverValid) = true ∧
    (["01.2.3", "1.2", "1.0.0-alpha.01", "1.0.0-"].any semverValid) = false ∧
    semverAscending ["1.0.0-alpha", "1.0.0", "1.1.0-rc1", "1.2.0"] = true := by
  exact ⟨by decide, by decide, by decide⟩

end Lipr
